import Mathlib

/-!
Shallow embedding of the sheetsdb buffering/reconciliation core
(`src/sheetsdb/sdk.py` and `src/sheetsdb/google_services.py`) and proofs about
its specified properties.

Modelling conventions:
- Python values flowing through the table overlay (cell contents, predicate
  values, parsed JSON) are modelled by the inductive `Value`.
- Python `float` is modelled by `Rat`; Python does not distinguish the int `5`
  from the float `5.0` under `==`/`<`, and no property proved here depends on
  float rounding.
- Functions that can raise return `Except PyError _`; each `PyError`
  constructor corresponds to one family of `raise` sites in the source.
- Mutating methods that can raise midway (Python leaves the object partially
  mutated) return the partially-mutated state together with `Option PyError`.
-/

namespace Sheetsdb

/-- Python exception model: one constructor per family of raise sites in
`sdk.py` / `google_services.py`. Message strings are dropped; the
distinguishing data (comparator, column type, ...) is kept. -/
inductive PyError where
  /-- ValueError("Both row and column indexes are None") in `_convert_to_a1` -/
  | bothIndexesNone
  /-- ValueError("Negative index") in `_convert_to_a1` / `get_columns_values` -/
  | negativeIndex
  /-- ValueError("Column index {} exceeds limits") in `_convert_to_a1` -/
  | columnOutOfRange
  /-- ValueError("value is None") in `WhereCondition.__init__` -/
  | valueIsNone
  /-- ValueError("Unrecognised comparator {}") in `WhereCondition.__init__` -/
  | unrecognisedComparator (comparator : String)
  /-- ValueError("Column name {} is not in column definitions") in `is_pass` -/
  | unknownColumn (col_name : String)
  /-- ValueError("json column type cannot be used in where condition") in `is_pass` -/
  | jsonInWhereCondition
  /-- ValueError("Illegal comparator {} for column type {}") in `is_pass` -/
  | illegalComparator (comparator col_type : String)
  /-- RuntimeError fallthrough at the end of `is_pass` -/
  | undetectedComparator
  /-- ValueError("Invalid column name for ...") in `select` / `insert` / `update` -/
  | invalidColumnName (site : String)
  /-- ValueError raised by Python `float()` on an unparsable raw value -/
  | floatParse (raw : String)
  /-- json.JSONDecodeError raised by `json.loads` on malformed input -/
  | jsonDecode (raw : String)
  /-- TypeError (unorderable comparison, or a non-string where one is needed) -/
  | typeMismatch
  /-- IndexError from a Python list indexed assignment out of range -/
  | indexOutOfRange
  /-- ValueError("value_range is None") in `Table.__init__` -/
  | valueRangeIsNone
  /-- ValueError("Wrong major dimension {}") in `Table.__init__` -/
  | wrongMajorDimension (d : String)
deriving DecidableEq

/-- Python value model: `None`, bool, number (int/float unified as `Rat`),
string, list, dict. Lists and dicts arise from `json.loads` and from callers
of `insert`/`update`; dicts keep Python 3.7+ insertion order as an
association list. -/
inductive Value where
  | vnone
  | vbool (b : Bool)
  | vnum (q : Rat)
  | vstr (s : String)
  | vlist (xs : List Value)
  | vdict (fields : List (String × Value))

instance : Inhabited Value := ⟨Value.vnone⟩

mutual

/-- Python `==` on values: structural, with Python's bool/number unification
(`True == 1`); values of unrelated types compare unequal. Dict comparison
assumes distinct keys (guaranteed for dicts built by this code). -/
def pyEq : Value → Value → Bool
  | .vnone, .vnone => true
  | .vbool a, .vbool b => a == b
  | .vbool a, .vnum q => (if a then (1 : Rat) else 0) == q
  | .vnum q, .vbool b => q == (if b then (1 : Rat) else 0)
  | .vnum a, .vnum b => a == b
  | .vstr a, .vstr b => a == b
  | .vlist xs, .vlist ys => pyEqList xs ys
  | .vdict xs, .vdict ys => pyEqFields xs ys
  | _, _ => false

/-- Elementwise Python `==` on lists. -/
def pyEqList : List Value → List Value → Bool
  | [], [] => true
  | x :: xs, y :: ys => pyEq x y && pyEqList xs ys
  | _, _ => false

/-- Fieldwise Python `==` on dicts; keyed dicts produced by this code always
agree on field order, so positional comparison is faithful here. -/
def pyEqFields : List (String × Value) → List (String × Value) → Bool
  | [], [] => true
  | (k, v) :: xs, (k2, v2) :: ys => k == k2 && pyEq v v2 && pyEqFields xs ys
  | _, _ => false

end

/-- Python `<` on values. Numbers (and bools, which are ints) compare
numerically, strings lexicographically; any other combination raises
TypeError in Python 3. Python list/tuple lexicographic comparison is not
reachable through the four declared column types, so it is mapped to
TypeError as well. -/
def pyLt : Value → Value → Except PyError Bool
  | .vnum a, .vnum b => .ok (decide (a < b))
  | .vnum a, .vbool b => .ok (decide (a < if b then (1 : Rat) else 0))
  | .vbool a, .vnum b => .ok (decide ((if a then (1 : Rat) else 0) < b))
  | .vbool a, .vbool b => .ok (decide ((if a then (1 : Rat) else 0) < if b then (1 : Rat) else 0))
  | .vstr a, .vstr b => .ok (decide (a < b))
  | _, _ => .error .typeMismatch

/-- Python `<=` on values; same domain as `pyLt`. -/
def pyLe : Value → Value → Except PyError Bool
  | .vnum a, .vnum b => .ok (decide (a ≤ b))
  | .vnum a, .vbool b => .ok (decide (a ≤ if b then (1 : Rat) else 0))
  | .vbool a, .vnum b => .ok (decide ((if a then (1 : Rat) else 0) ≤ b))
  | .vbool a, .vbool b => .ok (decide ((if a then (1 : Rat) else 0) ≤ if b then (1 : Rat) else 0))
  | .vstr a, .vstr b => .ok (decide (a ≤ b))
  | _, _ => .error .typeMismatch

/-- Python `>` as flipped `<` (for the value domains above this agrees with
Python's reflected comparison). -/
def pyGt (a b : Value) : Except PyError Bool := pyLt b a

/-- Python `>=` as flipped `<=`. -/
def pyGe (a b : Value) : Except PyError Bool := pyLe b a

mutual

/-- Python `str()` of a value. Faithful for `None`, bools, and strings (the
cases the coercion paths of this repository exercise); numbers are rendered
by `Rat`'s printer and containers by a simplified bracketed rendering, which
no proved property observes. -/
def pyStr : Value → String
  | .vnone => "None"
  | .vbool b => if b then "True" else "False"
  | .vnum q => toString q
  | .vstr s => s
  | .vlist xs => "[" ++ pyStrList xs ++ "]"
  | .vdict fs => "dict(" ++ pyStrFields fs ++ ")"

/-- Comma-joined rendering of list elements for `pyStr`. -/
def pyStrList : List Value → String
  | [] => ""
  | [x] => pyStr x
  | x :: xs => pyStr x ++ ", " ++ pyStrList xs

/-- Comma-joined rendering of dict fields for `pyStr`. -/
def pyStrFields : List (String × Value) → String
  | [] => ""
  | [(k, v)] => k ++ ": " ++ pyStr v
  | (k, v) :: xs => k ++ ": " ++ pyStr v ++ ", " ++ pyStrFields xs

end

/-- Decimal digits of a char list prefix: returns (digits, rest). -/
def takeDigits : List Char → List Char × List Char
  | [] => ([], [])
  | c :: rest =>
    if c.isDigit then
      let (ds, r) := takeDigits rest
      (c :: ds, r)
    else ([], c :: rest)

/-- Numeric value of a decimal digit list (most significant first). -/
def digitsToNat : List Char → ℕ → ℕ
  | [], acc => acc
  | c :: rest, acc => digitsToNat rest (acc * 10 + (c.toNat - 48))

/-- Python `float(s)` on a string, restricted to plain decimal literals
(optional sign, digits, optional fraction). Python also accepts
whitespace-padded and exponent forms, which this repository's data never
produces; those raise `floatParse` here just like genuinely malformed input. -/
def parseFloat (s : String) : Except PyError Rat :=
  let (sign, body) :=
    match s.data with
    | '-' :: rest => (true, rest)
    | '+' :: rest => (false, rest)
    | l => (false, l)
  let (intDs, r1) := takeDigits body
  match r1 with
  | [] =>
    if intDs = [] then .error (.floatParse s)
    else
      let m : Rat := (digitsToNat intDs 0 : ℕ)
      .ok (if sign then -m else m)
  | '.' :: r2 =>
    let (fracDs, r3) := takeDigits r2
    if r3 = [] ∧ (intDs ≠ [] ∨ fracDs ≠ []) then
      let m : Rat := (digitsToNat intDs 0 : ℕ) + (digitsToNat fracDs 0 : ℕ) / (10 : Rat) ^ fracDs.length
      .ok (if sign then -m else m)
    else .error (.floatParse s)
  | _ => .error (.floatParse s)

/-- Python `float(raw)`: numbers pass through, bools become 0/1, strings are
parsed, anything else is a TypeError. -/
def pyFloat : Value → Except PyError Value
  | .vnum q => .ok (.vnum q)
  | .vbool b => .ok (.vnum (if b then 1 else 0))
  | .vstr s => (parseFloat s).map Value.vnum
  | _ => .error .typeMismatch

/-- Double-quote character, written by code point to keep raw character
literals simple. -/
def qChar : Char := Char.ofNat 34

/-- Backslash character. -/
def bsChar : Char := Char.ofNat 92

/-- Left curly brace character. -/
def lbChar : Char := Char.ofNat 123

/-- Right curly brace character. -/
def rbChar : Char := Char.ofNat 125

/-- Whitespace skipper for the JSON reader. -/
def skipWs : List Char → List Char
  | c :: rest => if c = ' ' ∨ c = '\t' ∨ c = '\n' ∨ c = '\r' then skipWs rest else c :: rest
  | [] => []

/-- JSON string body reader: consumes up to the closing quote, decoding the
single-character escapes; `\u` escapes are rejected (not produced by this
repository's data). Returns (decoded chars, rest after closing quote). -/
def readJsonString : List Char → Option (List Char × List Char)
  | [] => none
  | c :: rest =>
    if c = qChar then some ([], rest)
    else if c = bsChar then
      match rest with
      | [] => none
      | e :: rest2 =>
        let dec : Option Char :=
          if e = qChar ∨ e = bsChar ∨ e = '/' then some e
          else if e = 'n' then some '\n'
          else if e = 't' then some '\t'
          else if e = 'r' then some '\r'
          else none
        match dec with
        | none => none
        | some d =>
          match readJsonString rest2 with
          | none => none
          | some (ds, r) => some (d :: ds, r)
    else
      match readJsonString rest with
      | none => none
      | some (ds, r) => some (c :: ds, r)

/-- JSON number reader (integer or integer.fraction, optional minus), the
forms this repository's metadata produces; exponents are rejected. -/
def readJsonNumber (l : List Char) : Option (Value × List Char) :=
  let (sign, body) :=
    match l with
    | '-' :: rest => (true, rest)
    | _ => (false, l)
  let (intDs, r1) := takeDigits body
  if intDs = [] then none
  else
    match r1 with
    | '.' :: r2 =>
      let (fracDs, r3) := takeDigits r2
      if fracDs = [] then none
      else
        let m : Rat := (digitsToNat intDs 0 : ℕ) + (digitsToNat fracDs 0 : ℕ) / (10 : Rat) ^ fracDs.length
        some (.vnum (if sign then -m else m), r3)
    | _ =>
      let m : Rat := (digitsToNat intDs 0 : ℕ)
      some (.vnum (if sign then -m else m), r1)

mutual

/-- JSON value reader with fuel (fuel bounds nesting depth; `jsonLoads`
supplies more fuel than the input length, so parsing never runs out on
well-formed input). Models the grammar `json.loads` accepts on this
repository's data. -/
def readJsonValue : ℕ → List Char → Option (Value × List Char)
  | 0, _ => none
  | fuel + 1, l =>
    match skipWs l with
    | [] => none
    | c :: rest =>
      if c = qChar then
        match readJsonString rest with
        | none => none
        | some (ds, r) => some (.vstr (String.mk ds), r)
      else if c = lbChar then
        match skipWs rest with
        | c2 :: r2 =>
          if c2 = rbChar then some (.vdict [], r2)
          else readJsonFields fuel (c2 :: r2)
        | [] => none
      else if c = '[' then
        match skipWs rest with
        | c2 :: r2 =>
          if c2 = ']' then some (.vlist [], r2)
          else
            match readJsonItems fuel (c2 :: r2) with
            | none => none
            | some (vs, r) => some (.vlist vs, r)
        | [] => none
      else if c = 't' then
        match rest with
        | 'r' :: 'u' :: 'e' :: r => some (.vbool true, r)
        | _ => none
      else if c = 'f' then
        match rest with
        | 'a' :: 'l' :: 's' :: 'e' :: r => some (.vbool false, r)
        | _ => none
      else if c = 'n' then
        match rest with
        | 'u' :: 'l' :: 'l' :: r => some (.vnone, r)
        | _ => none
      else readJsonNumber (c :: rest)

/-- Comma-separated JSON array items up to the closing bracket. -/
def readJsonItems : ℕ → List Char → Option (List Value × List Char)
  | 0, _ => none
  | fuel + 1, l =>
    match readJsonValue fuel l with
    | none => none
    | some (v, r) =>
      match skipWs r with
      | ',' :: r2 =>
        match readJsonItems fuel r2 with
        | none => none
        | some (vs, r3) => some (v :: vs, r3)
      | c :: r2 => if c = ']' then some ([v], r2) else none
      | [] => none

/-- Comma-separated JSON object fields up to the closing brace, resulting in
a `vdict`. -/
def readJsonFields : ℕ → List Char → Option (Value × List Char)
  | 0, _ => none
  | fuel + 1, l =>
    match skipWs l with
    | c :: rest =>
      if c = qChar then
        match readJsonString rest with
        | none => none
        | some (ks, r1) =>
          match skipWs r1 with
          | ':' :: r2 =>
            match readJsonValue fuel r2 with
            | none => none
            | some (v, r3) =>
              match skipWs r3 with
              | ',' :: r4 =>
                match readJsonFields fuel r4 with
                | some (.vdict fs, r5) => some (.vdict ((String.mk ks, v) :: fs), r5)
                | _ => none
              | c2 :: r4 =>
                if c2 = rbChar then some (.vdict [(String.mk ks, v)], r4) else none
              | [] => none
          | _ => none
      else none
    | [] => none

end

/-- Python `json.loads(s)`: parse the full string (trailing whitespace only),
raising JSONDecodeError on malformed input. -/
def jsonLoads (s : String) : Except PyError Value :=
  match readJsonValue (s.data.length + 1) s.data with
  | none => .error (.jsonDecode s)
  | some (v, rest) =>
    if skipWs rest = [] then .ok v else .error (.jsonDecode s)

/-- Python `json.loads(raw)` as called by `convert_to_value`: only strings
may be parsed (a non-string raw value raises TypeError). -/
def pyJsonLoads : Value → Except PyError Value
  | .vstr s => jsonLoads s
  | _ => .error .typeMismatch

/-- Python `value is None` identity test. -/
def Value.isNone : Value → Bool
  | .vnone => true
  | _ => false

/-- Test for `raw_value is None or raw_value == ''` at the top of
`convert_to_value` (nothing but the empty string compares `==` equal to `''`). -/
def isNoneOrEmpty : Value → Bool
  | .vnone => true
  | v => pyEq v (.vstr "")

/-- Embeds `convert_to_value(raw_value, value_type)` from `sdk.py`: `None` or
the empty string become `None` for every type; otherwise dispatch on the type
tag, with unrecognised tags passing the raw value through (after a logged
warning, which is not modelled). -/
def convert_to_value (raw_value : Value) (value_type : String) : Except PyError Value :=
  if isNoneOrEmpty raw_value then .ok .vnone
  else if value_type = "string" then .ok (.vstr (pyStr raw_value))
  else if value_type = "number" then pyFloat raw_value
  else if value_type = "datetime" then .ok (.vstr (pyStr raw_value))
  else if value_type = "json" then pyJsonLoads raw_value
  else .ok raw_value

/-- Column definition dict `{'name': ..., 'type': ...}`. -/
structure ColDef where
  name : String
  type : String
deriving DecidableEq

instance : Inhabited ColDef := ⟨⟨"", ""⟩⟩

/-- Embeds `get_or_default(arr, index)` from `sdk.py` with its default
`default_value=None`. -/
def get_or_default (arr : List Value) (index : ℕ) : Value :=
  if h : index < arr.length then arr.get ⟨index, h⟩ else .vnone

/-- Embeds `get_col_index(col_name, col_defs)`: index of the first column
definition whose name matches, else `none`. -/
def get_col_index (col_name : String) (col_defs : List ColDef) : Option ℕ :=
  col_defs.findIdx? (fun cd => cd.name == col_name)

/-- Embeds the `WhereCondition` data (after `__init__` validation). -/
structure WhereCondition where
  col_name : String
  value : Value
  comparator : String

/-- Embeds `WhereCondition.__init__`: value must be non-None and the
comparator recognised. (`col_name is None` cannot be expressed for a Lean
`String`, so that check is vacuous here.) -/
def mkWhereCondition (col_name : String) (value : Value) (comparator : String) :
    Except PyError WhereCondition :=
  if value.isNone then .error .valueIsNone
  else if comparator ∉ (["=", "<=", "<", ">", ">="] : List String) then
    .error (.unrecognisedComparator comparator)
  else .ok ⟨col_name, value, comparator⟩

/-- Embeds `WhereCondition.is_pass(row, col_defs)` from `sdk.py` lines
554-591: resolve the column, reject `json` columns, reject non-`=`
comparators unless the column type is literally `'int'`, coerce the cell
(missing cells coerce to `None`), then compare. -/
def WhereCondition.is_pass (wc : WhereCondition) (row : List Value) (col_defs : List ColDef) :
    Except PyError Bool := do
  match get_col_index wc.col_name col_defs with
  | none => .error (.unknownColumn wc.col_name)
  | some col_index =>
    let col_type := (col_defs.getD col_index default).type
    if col_type = "json" then .error .jsonInWhereCondition
    else if wc.comparator ≠ "=" ∧ col_type ≠ "int" then
      .error (.illegalComparator wc.comparator col_type)
    else do
      let col_value ←
        if h : col_index < row.length then convert_to_value (row.get ⟨col_index, h⟩) col_type
        else pure Value.vnone
      if wc.comparator = "=" then pure (pyEq col_value wc.value)
      else if wc.comparator = "<=" then pyLe col_value wc.value
      else if wc.comparator = "<" then pyLt col_value wc.value
      else if wc.comparator = ">" then pyGt col_value wc.value
      else if wc.comparator = ">=" then pyGe col_value wc.value
      else .error .undetectedComparator


/-- Ascending enumeration of a finite set of naturals. This models Python
`sorted(row_indexes_set)` in `delete_rows`, and is also the order chosen for
iterating a Python set where the source iterates one with unspecified order
(the `commit` update payload); no proved property depends on that order. -/
def setToAscList (s : Finset ℕ) : List ℕ :=
  (List.range (s.sup id + 1)).filter (fun n => n ∈ s)

/-- Google `ValueRange` resource as consumed by `Table.__init__`:
`majorDimension` plus the (possibly absent, defaulted to `[]`) `values` rows. -/
structure ValueRange where
  majorDimension : String
  values : List (List Value)

/-- Embeds the `Table` object state from `sdk.py`: the backing spreadsheet,
the column schema, the rows last read from the sheet, and the three pending
change sets. (The `user` field only routes credentials and carries no table
state.) -/
structure TableState where
  spreadsheet_id : String
  col_defs : List ColDef
  initial_rows : List (List Value)
  inserted_rows : List (List Value)
  deleted_initial_row_indexes : Finset ℕ
  updated_initial_row_indexes : Finset ℕ

instance : Inhabited TableState := ⟨⟨"", [], [], [], ∅, ∅⟩⟩

/-- Column names of the table, as cached by `Table.__init__`. -/
def TableState.col_names (t : TableState) : List String :=
  t.col_defs.map (fun cd => cd.name)

/-- Embeds `Table.__init__`: validates the value range and captures it as
the initial rows, with all pending sets empty. -/
def tableInit (spreadsheet_id : String) (value_range : Option ValueRange)
    (col_defs : List ColDef) : Except PyError TableState :=
  match value_range with
  | none => .error .valueRangeIsNone
  | some vr =>
    if vr.majorDimension ≠ "ROWS" then .error (.wrongMajorDimension vr.majorDimension)
    else .ok ⟨spreadsheet_id, col_defs, vr.values, [], ∅, ∅⟩

/-- Embeds `Table._get_effective_rows`: initial rows at indexes not marked
deleted, in order, followed by the locally inserted rows. -/
def TableState.effective_rows (t : TableState) : List (List Value) :=
  ((List.range t.initial_rows.length).filter
      (fun i => i ∉ t.deleted_initial_row_indexes)).map (fun i => t.initial_rows.getD i []) ++
    t.inserted_rows

/-- Embeds `Table._is_where_conditions_passed`: the Python list comprehension
evaluates `is_pass` for every condition left to right (the first raise
propagates), then `all` conjoins the booleans. -/
def is_where_conditions_passed (col_defs : List ColDef) (row : List Value) :
    List WhereCondition → Except PyError Bool
  | [] => .ok true
  | wc :: rest => do
    let b ← wc.is_pass row col_defs
    let bs ← is_where_conditions_passed col_defs row rest
    pure (b && bs)

/-- Filter rows by the conjunction of where conditions, propagating the first
raised error (models the filtering comprehensions in `select` and `delete`). -/
def filterRowsPassing (col_defs : List ColDef) (wcs : List WhereCondition) :
    List (List Value) → Except PyError (List (List Value))
  | [] => .ok []
  | row :: rest => do
    let b ← is_where_conditions_passed col_defs row wcs
    let keep ← filterRowsPassing col_defs wcs rest
    pure (if b then row :: keep else keep)

/-- Indexes `i` of `rows` whose row passes all conditions and is not already
deleted, in ascending order; models the matched-initial-row-indexes
comprehensions of `update` and `delete` (is_pass runs first, so it raises
even for already-deleted rows, exactly as in the source). -/
def matchedInitialIndexes (col_defs : List ColDef) (rows : List (List Value))
    (deleted : Finset ℕ) (wcs : List WhereCondition) : Except PyError (List ℕ) := do
  let rec go : List ℕ → Except PyError (List ℕ)
    | [] => .ok []
    | i :: rest => do
      let b ← is_where_conditions_passed col_defs (rows.getD i []) wcs
      let keep ← go rest
      pure (if b ∧ i ∉ deleted then i :: keep else keep)
  go (List.range rows.length)

/-- Matched indexes among inserted rows (no deleted-set filtering), as in
`update`. -/
def matchedRowIndexes (col_defs : List ColDef) (rows : List (List Value))
    (wcs : List WhereCondition) : Except PyError (List ℕ) := do
  let rec go : List ℕ → Except PyError (List ℕ)
    | [] => .ok []
    | i :: rest => do
      let b ← is_where_conditions_passed col_defs (rows.getD i []) wcs
      let keep ← go rest
      pure (if b then i :: keep else keep)
  go (List.range rows.length)

/-- SelectResult: `select` returns a list of per-row dicts when row-based,
and a dict of per-column lists when column-based. -/
inductive SelectResult where
  | rows (result : List (List (String × Value)))
  | cols (result : List (String × List Value))

/-- Row dict for one selected row: for each requested column index, the
converted cell keyed by the column name (models the inner loop of the
row-based branch of `select`; an unresolvable index would be a Python
TypeError, unreachable after the subset validation). -/
def selectRowData (col_defs : List ColDef) (row : List Value) :
    List (Option ℕ) → Except PyError (List (String × Value))
  | [] => .ok []
  | none :: _ => .error .typeMismatch
  | some i :: rest => do
    let v ← convert_to_value (get_or_default row i) (col_defs.getD i default).type
    let tail ← selectRowData col_defs row rest
    pure (((col_defs.getD i default).name, v) :: tail)

/-- Column list for one selected column over all filtered rows (models the
inner loop of the column-based branch of `select`). -/
def selectColumnData (col_defs : List ColDef) (i : ℕ) :
    List (List Value) → Except PyError (List Value)
  | [] => .ok []
  | row :: rest => do
    let v ← convert_to_value (get_or_default row i) (col_defs.getD i default).type
    let tail ← selectColumnData col_defs i rest
    pure (v :: tail)

/-- Row-based result assembly of `select`. -/
def selectRowsResult (col_defs : List ColDef) (col_indexes : List (Option ℕ)) :
    List (List Value) → Except PyError (List (List (String × Value)))
  | [] => .ok []
  | row :: rest => do
    let rd ← selectRowData col_defs row col_indexes
    let tail ← selectRowsResult col_defs col_indexes rest
    pure (rd :: tail)

/-- Column-based result assembly of `select`. -/
def selectColsResult (col_defs : List ColDef) (filtered : List (List Value)) :
    List (Option ℕ) → Except PyError (List (String × List Value))
  | [] => .ok []
  | none :: _ => .error .typeMismatch
  | some i :: rest => do
    let cd ← selectColumnData col_defs i filtered
    let tail ← selectColsResult col_defs filtered rest
    pure (((col_defs.getD i default).name, cd) :: tail)

/-- Embeds `Table.select(col_names, where_conditions, is_row_base)`: validate
the requested names, short-circuit on an empty request, filter the effective
rows by the conditions, then project and coerce the requested columns. -/
def TableState.select (t : TableState) (col_names : List String)
    (wcs : List WhereCondition) (is_row_base : Bool) : Except PyError SelectResult := do
  if ¬ col_names.all (fun n => n ∈ t.col_names) then .error (.invalidColumnName "select")
  else if col_names.length = 0 then
    .ok (if is_row_base then .rows [] else .cols [])
  else do
    let filtered ← filterRowsPassing t.col_defs wcs t.effective_rows
    let col_indexes := col_names.map (fun n => get_col_index n t.col_defs)
    if is_row_base then
      SelectResult.rows <$> selectRowsResult t.col_defs col_indexes filtered
    else
      SelectResult.cols <$> selectColsResult t.col_defs filtered col_indexes

/-- Embeds `Table.insert(row_data)`: validate the keys, then append one
positional row with unnamed columns set to `None`. -/
def TableState.insert (t : TableState) (row_data : List (String × Value)) :
    Except PyError TableState :=
  if ¬ (row_data.map Prod.fst).all (fun k => k ∈ t.col_names) then
    .error (.invalidColumnName "insert")
  else
    .ok { t with
      inserted_rows := t.inserted_rows ++
        [t.col_defs.map (fun cd =>
          match row_data.lookup cd.name with
          | some v => v
          | none => Value.vnone)] }

/-- In-place update of one row: walk the column indexes left to right and
assign `row_data[name]` where present. A row shorter than an assigned column
index raises IndexError in Python after the earlier assignments landed, so
the partially updated row is returned with the error. -/
def updateOneRow (row_data : List (String × Value)) (col_defs : List ColDef)
    (row : List Value) : List Value × Option PyError :=
  go row (List.range col_defs.length)
where
  go (row : List Value) : List ℕ → List Value × Option PyError
    | [] => (row, none)
    | ci :: rest =>
      match row_data.lookup (col_defs.getD ci default).name with
      | none => go row rest
      | some v =>
        if ci < row.length then go (row.set ci v) rest
        else (row, some .indexOutOfRange)

/-- Embeds the `update_rows` inner helper of `Table.update`: update each row
at the given indexes in turn, stopping at (and reporting) the first raised
IndexError with all earlier mutations kept. -/
def updateRowsAt (row_data : List (String × Value)) (col_defs : List ColDef) :
    List (List Value) → List ℕ → List (List Value) × Option PyError
  | rows, [] => (rows, none)
  | rows, i :: rest =>
    match updateOneRow row_data col_defs (rows.getD i []) with
    | (newRow, some e) => (rows.set i newRow, some e)
    | (newRow, none) => updateRowsAt row_data col_defs (rows.set i newRow) rest

/-- Embeds `Table.update(row_data, where_conditions)`: validate keys, update
matching not-deleted initial rows in place and record their indexes, then
update matching inserted rows in place. A raise leaves the mutations made so
far in place, exactly as the Python method does. -/
def TableState.update (t : TableState) (row_data : List (String × Value))
    (wcs : List WhereCondition) : TableState × Option PyError :=
  if ¬ (row_data.map Prod.fst).all (fun k => k ∈ t.col_names) then
    (t, some (.invalidColumnName "update"))
  else
    match matchedInitialIndexes t.col_defs t.initial_rows t.deleted_initial_row_indexes wcs with
    | .error e => (t, some e)
    | .ok matched =>
      match updateRowsAt row_data t.col_defs t.initial_rows matched with
      | (rows1, some e) => ({ t with initial_rows := rows1 }, some e)
      | (rows1, none) =>
        let t1 := { t with
          initial_rows := rows1,
          updated_initial_row_indexes := t.updated_initial_row_indexes ∪ matched.toFinset }
        match matchedRowIndexes t.col_defs t.inserted_rows wcs with
        | .error e => (t1, some e)
        | .ok mi =>
          match updateRowsAt row_data t.col_defs t.inserted_rows mi with
          | (ins1, err) => ({ t1 with inserted_rows := ins1 }, err)

/-- Inserted rows kept by `Table.delete`: those not passing the conditions
(first raise propagates before any reassignment). -/
def keptInsertedRows (col_defs : List ColDef) (wcs : List WhereCondition) :
    List (List Value) → Except PyError (List (List Value))
  | [] => .ok []
  | row :: rest => do
    let b ← is_where_conditions_passed col_defs row wcs
    let keep ← keptInsertedRows col_defs wcs rest
    pure (if b then keep else row :: keep)

/-- Embeds `Table.delete(where_conditions)`: add matching not-yet-deleted
initial-row indexes to the deleted set, then drop matching inserted rows.
The updated-indexes set is never touched. If the inserted-rows comprehension
raises, the deleted set keeps its new indexes (the Python assignment has
already happened) while `inserted_rows` is left unchanged. -/
def TableState.delete (t : TableState) (wcs : List WhereCondition) :
    TableState × Option PyError :=
  match matchedInitialIndexes t.col_defs t.initial_rows t.deleted_initial_row_indexes wcs with
  | .error e => (t, some e)
  | .ok matched =>
    let t1 := { t with
      deleted_initial_row_indexes := t.deleted_initial_row_indexes ∪ matched.toFinset }
    match keptInsertedRows t.col_defs wcs t.inserted_rows with
    | .error e => (t1, some e)
    | .ok kept => ({ t1 with inserted_rows := kept }, none)

/-- Embeds `SheetsdbSDKError` (message string dropped; code and source kept). -/
structure SheetsdbSDKError where
  error_code : ℕ
  source : String
deriving DecidableEq

/-- SheetsdbSDKError.SPREADSHEET_NOT_FOUND -/
def SPREADSHEET_NOT_FOUND : ℕ := 1

/-- SheetsdbSDKError.UNEXPECTED_TABLE_RESULT -/
def UNEXPECTED_TABLE_RESULT : ℕ := 2

/-- SheetsdbSDKError.SHEETS_API_ERROR -/
def SHEETS_API_ERROR : ℕ := 3

/-- One remote Sheets operation issued by `Table.commit`, at the
`google_services` call boundary: the update batch payload, the deleted row
index set handed to `delete_rows`, or the appended rows. -/
inductive RemoteCall where
  | update_rows (payload : List (ℕ × List Value))
  | delete_rows (row_indexes : Finset ℕ)
  | insert_rows (rows : List (List Value))

/-- Outcome model for the three remote steps of one `commit`: the error
status each would report if issued (`none` = success), abstracting the
Sheets API boundary. -/
structure RemoteOutcomes where
  update_status : Option ℕ
  delete_status : Option ℕ
  insert_status : Option ℕ

/-- Update payload of `commit`: for each updated index, the current initial
row (Python iterates the set with unspecified order; ascending is chosen
here, and no proved property depends on it). Indexes recorded by `update`
are always in range, so the `getD` default is never taken. -/
def commitUpdatePayload (t : TableState) : List (ℕ × List Value) :=
  (setToAscList t.updated_initial_row_indexes).map (fun i => (i, t.initial_rows.getD i []))

/-- The remote update call commit issues when the updated set is non-empty. -/
def commitUpdateCall (t : TableState) : RemoteCall := .update_rows (commitUpdatePayload t)

/-- The remote delete call commit issues when the deleted set is non-empty. -/
def commitDeleteCall (t : TableState) : RemoteCall :=
  .delete_rows t.deleted_initial_row_indexes

/-- The remote append call commit issues when there are inserted rows. -/
def commitInsertCall (t : TableState) : RemoteCall := .insert_rows t.inserted_rows

/-- State merge at the end of a fully successful `commit`: effective rows
become the new initial rows and all three pending sets are cleared. -/
def commitFinalize (t : TableState) : TableState :=
  { t with
    initial_rows := t.effective_rows,
    inserted_rows := [],
    deleted_initial_row_indexes := ∅,
    updated_initial_row_indexes := ∅ }

/-- The SheetsdbSDKError raised by a failed `commit` step; the source string
is `'{}{}'.format(self.__qualname__, 'commit')`, i.e. `"Tablecommit"`. -/
def commitApiError : SheetsdbSDKError := ⟨SHEETS_API_ERROR, "Tablecommit"⟩

/-- Embeds `Table.commit()`: issue update, then delete, then insert —
each only when its pending set is non-empty — aborting (with local state
untouched) on the first error status; on success, merge and clear. The
returned list is the trace of remote calls actually issued, in order. -/
def TableState.commit (t : TableState) (remote : RemoteOutcomes) :
    List RemoteCall × TableState × Option SheetsdbSDKError :=
  let step1 : List RemoteCall × Option ℕ :=
    if 0 < t.updated_initial_row_indexes.card then ([commitUpdateCall t], remote.update_status)
    else ([], none)
  match step1 with
  | (trace1, some _) => (trace1, t, some commitApiError)
  | (trace1, none) =>
    let step2 : List RemoteCall × Option ℕ :=
      if 0 < t.deleted_initial_row_indexes.card then
        (trace1 ++ [commitDeleteCall t], remote.delete_status)
      else (trace1, none)
    match step2 with
    | (trace2, some _) => (trace2, t, some commitApiError)
    | (trace2, none) =>
      let step3 : List RemoteCall × Option ℕ :=
        if 0 < t.inserted_rows.length then
          (trace2 ++ [commitInsertCall t], remote.insert_status)
        else (trace2, none)
      match step3 with
      | (trace3, some _) => (trace3, t, some commitApiError)
      | (trace3, none) => (trace3, commitFinalize t, none)


/-- The single-letter column alphabet of `_convert_to_a1`. -/
def column_index_mapping : List String :=
  ["A", "B", "C", "D", "E", "F", "G", "H", "I", "J", "K", "L", "M",
   "N", "O", "P", "Q", "R", "S", "T", "U", "V", "W", "X", "Y", "Z"]

/-- Embeds `_convert_to_a1(row_index, col_index)` from `google_services.py`,
indexes as Python ints. The source's negative-index test is parenthesised as
`(row_index is not None and row_index) < 0`, which evaluates identically to
the intended `row_index is not None and row_index < 0` because Python's
`False < 0` is false; the intended form is used here. -/
def _convert_to_a1 (row_index col_index : Option Int) : Except PyError String :=
  if row_index = none ∧ col_index = none then .error .bothIndexesNone
  else if (∃ r, row_index = some r ∧ r < 0) ∨ (∃ c, col_index = some c ∧ c < 0) then
    .error .negativeIndex
  else if ∃ c, col_index = some c ∧ c > 255 then .error .columnOutOfRange
  else
    let row_component : String :=
      match row_index with
      | some r => toString (r + 1)
      | none => ""
    let col_component : String :=
      match col_index with
      | some c =>
        let num_letters : Int := (column_index_mapping.length : Int)
        let first_letter_index := c / num_letters - 1
        let second_letter_index := c % num_letters
        if first_letter_index ≥ 0 then
          column_index_mapping.getD first_letter_index.toNat "" ++
            column_index_mapping.getD second_letter_index.toNat ""
        else column_index_mapping.getD second_letter_index.toNat ""
      | none => ""
    .ok (col_component ++ row_component)

/-- Modelled from the spec: the standard bijective base-26 two-letter column
encoding (`AA`, `AB`, ..., starting at index 26), used only to compare the
source arithmetic of `_convert_to_a1` against the spec's expectation. -/
def standardTwoLetterColumn (col : ℕ) : String :=
  column_index_mapping.getD ((col - 26) / 26) "" ++ column_index_mapping.getD ((col - 26) % 26) ""

/-- Run-splitting loop of `delete_rows`: walk the sorted indexes, extending
the current run `continuous` while the next index is exactly one greater
than `prev`, otherwise closing the run into the accumulator. Mirrors the
Python `for` loop with its trailing `continuous_row_indexes.append`. -/
def splitRunsAux : ℕ → List ℕ → List (List ℕ) → List ℕ → List (List ℕ)
  | _, continuous, acc, [] => acc ++ [continuous]
  | prev, continuous, acc, curr :: rest =>
    if (prev : Int) = (curr : Int) - 1 then splitRunsAux curr (continuous ++ [curr]) acc rest
    else splitRunsAux curr [curr] (acc ++ [continuous]) rest

/-- Embeds the grouping of `delete_rows` (`google_services.py` lines 236-252):
split a sorted index list into maximal runs of consecutive indexes. The
Python code skips the sort and the loop when the list has fewer than two
elements; the result coincides, as `splitRunsAux h [h] [] [] = [[h]]`. -/
def continuous_row_indexes (l : List ℕ) : List (List ℕ) :=
  match l with
  | [] => []
  | h :: t => splitRunsAux h [h] [] t

/-- Embeds the `delete_ranges` construction of `delete_rows`: the sorted,
deduplicated index set split into runs, each run becoming a closed-open
`(startIndex, endIndex)` pair (`continuous[0]`, `continuous[-1] + 1`). -/
def delete_ranges (row_indexes_set : Finset ℕ) : List (ℕ × ℕ) :=
  (continuous_row_indexes (setToAscList row_indexes_set)).map
    (fun continuous => (continuous.headI, continuous.getLastD 0 + 1))


/-- META_SPREADSHEET_COL_DEFS from `configs.py`. -/
def META_SPREADSHEET_COL_DEFS : List ColDef :=
  [⟨"database_name", "string"⟩, ⟨"table_name", "string"⟩,
   ⟨"spreadsheet_id", "string"⟩, ⟨"col_defs", "json"⟩]

/-- META_DATABASE_NAME from `configs.py`. -/
def META_DATABASE_NAME : String := "sheetsdb"

/-- META_TABLE_NAME from `configs.py`. -/
def META_TABLE_NAME : String := "meta"

/-- Python `hasattr(d, name)` on a dict object: it tests for an attribute of
the dict (its methods), never for a key, so for any name that is not a dict
method name it is False. The SDK calls it with database names; listing the
dict method names keeps the model total and faithful even for a database
perversely named `get`. -/
def dict_hasattr (name : String) : Bool :=
  name ∈ (["clear", "copy", "fromkeys", "get", "items", "keys", "pop",
           "popitem", "setdefault", "update", "values"] : List String)

/-- Python dict read `d.get(k)` over an insertion-ordered association list. -/
def dictGet {α : Type} (d : List (String × α)) (k : String) : Option α :=
  (d.find? (fun kv => kv.1 == k)).map (fun kv => kv.2)

/-- Python dict write `d[k] = v`: replace in place if the key exists, else
append, preserving insertion order. -/
def dictSet {α : Type} (d : List (String × α)) (k : String) (v : α) : List (String × α) :=
  if (d.find? (fun kv => kv.1 == k)).isSome then
    d.map (fun kv => if kv.1 == k then (k, v) else kv)
  else d ++ [(k, v)]

/-- The nested read `self._tables.get(a, {}).get(b)`. -/
def dictGet2 {α : Type} (d : List (String × List (String × α))) (a b : String) : Option α :=
  dictGet (match dictGet d a with | some inner => inner | none => []) b

/-- The nested write `self._tables[a][b] = v` (the inner dict exists at every
reachable call site because the `hasattr` branch just (re)created it). -/
def dictSet2 {α : Type} (d : List (String × List (String × α))) (a b : String) (v : α) :
    List (String × List (String × α)) :=
  dictSet d a (dictSet (match dictGet d a with | some inner => inner | none => []) b v)

/-- Remote Sheets read boundary for the SDK: the outcome
(`ValueRange` response, error status) that
`google_services.get_columns_values` reports for each spreadsheet id. The
column window requested by the SDK always covers every populated column of
this model's sheets, so the window arguments do not change the response. -/
structure SheetsEnv where
  fetch : String → Option ValueRange × Option ℕ

/-- Embeds `get_columns_values(user, spreadsheet_id, start, end)`: the
explicit `== -1` guard, then the two `_convert_to_a1` conversions (whose
validation errors propagate), then the remote read. -/
def get_columns_values (env : SheetsEnv) (spreadsheet_id : String)
    (start_col_index end_col_index : Int) : Except PyError (Option ValueRange × Option ℕ) := do
  if start_col_index = -1 ∨ end_col_index = -1 then .error .negativeIndex
  else do
    let _ ← _convert_to_a1 none (some start_col_index)
    let _ ← _convert_to_a1 none (some end_col_index)
    .ok (env.fetch spreadsheet_id)

/-- Error union at the SDK layer: a propagating Python exception or a raised
`SheetsdbSDKError`. -/
inductive Err where
  | py (e : PyError)
  | sdk (e : SheetsdbSDKError)
deriving DecidableEq

/-- Embeds `SheetsdbSDK._create_table_from_spreadsheet`: read the sheet's
columns `0 .. len(col_defs)-1`, then build the in-memory `Table`; a 404
becomes SPREADSHEET_NOT_FOUND, any other error status SHEETS_API_ERROR. -/
def _create_table_from_spreadsheet (env : SheetsEnv) (spreadsheet_id : String)
    (col_defs : List ColDef) : Except Err TableState :=
  match get_columns_values env spreadsheet_id 0 ((col_defs.length : Int) - 1) with
  | .error e => .error (.py e)
  | .ok (value_range, error_status) =>
    match error_status with
    | none => (tableInit spreadsheet_id value_range col_defs).mapError Err.py
    | some 404 => .error (.sdk ⟨SPREADSHEET_NOT_FOUND, "get_table_defs"⟩)
    | some _ => .error (.sdk ⟨SHEETS_API_ERROR, "get_table_defs"⟩)

/-- Process state of one `SheetsdbSDK` instance. Python object identity for
the cached `Table`s is modelled with a heap: `heap` holds every `Table`
constructed so far and `tables` maps database name → table name → heap
index; two equal heap indexes mean the same in-memory instance. -/
structure SDKState where
  meta_spreadsheet_id : String
  tables : List (String × List (String × ℕ))
  heap : List TableState

/-- Embeds `SheetsdbSDK.get_meta_table`: return the cached meta table if
present, else construct it from the meta spreadsheet. The guard
`if not hasattr(self._tables, META_DATABASE_NAME)` is a hasattr-on-dict test
that is always true for this name, so `self._tables[META_DATABASE_NAME]` is
(re)assigned to a fresh empty dict whenever the meta table is created. -/
def get_meta_table (env : SheetsEnv) (s : SDKState) : Except Err (ℕ × SDKState) :=
  match dictGet2 s.tables META_DATABASE_NAME META_TABLE_NAME with
  | some tid => .ok (tid, s)
  | none =>
    match _create_table_from_spreadsheet env s.meta_spreadsheet_id META_SPREADSHEET_COL_DEFS with
    | .error e => .error e
    | .ok tbl =>
      let tid := s.heap.length
      let tables1 :=
        if ¬ dict_hasattr META_DATABASE_NAME then dictSet s.tables META_DATABASE_NAME []
        else s.tables
      let tables2 := dictSet2 tables1 META_DATABASE_NAME META_TABLE_NAME tid
      .ok (tid, { s with tables := tables2, heap := s.heap ++ [tbl] })

/-- Dynamic-typing glue: the selected `spreadsheet_id` cell is used as a
string spreadsheet id; a non-string here would make the subsequent Sheets
request fail, modelled as a TypeError. -/
def asStr : Value → Except PyError String
  | .vstr s => .ok s
  | _ => .error .typeMismatch

/-- Dynamic-typing glue: the parsed `col_defs` JSON is consumed as a list of
`{'name': str, 'type': str}` dicts by `Table.__init__`; any other shape
raises there (TypeError/KeyError), modelled eagerly as a TypeError. -/
def asColDefs : Value → Except PyError (List ColDef)
  | .vlist items =>
    let rec go : List Value → Except PyError (List ColDef)
      | [] => .ok []
      | .vdict fields :: rest =>
        match dictGet fields "name", dictGet fields "type" with
        | some (.vstr n), some (.vstr ty) => (go rest).map (fun cds => ⟨n, ty⟩ :: cds)
        | _, _ => .error .typeMismatch
      | _ :: _ => .error .typeMismatch
    go items
  | _ => .error .typeMismatch

/-- Embeds `SheetsdbSDK.get_table(database_name, table_name)`: return the
cached instance if present; otherwise resolve `spreadsheet_id` and
`col_defs` by a one-row meta-table query, construct the `Table`, and store
it — after `self._tables[database_name] = {}` has run (the hasattr-on-dict
guard above it is true for every ordinary database name), evicting every
other cached table of that database. -/
def get_table (env : SheetsEnv) (s : SDKState) (database_name table_name : String) :
    Except Err (ℕ × SDKState) :=
  match dictGet2 s.tables database_name table_name with
  | some tid => .ok (tid, s)
  | none =>
    match get_meta_table env s with
    | .error e => .error e
    | .ok (mid, s1) =>
      let meta_table := s1.heap.getD mid default
      match meta_table.select ["spreadsheet_id", "col_defs"]
          [⟨"database_name", .vstr database_name, "="⟩, ⟨"table_name", .vstr table_name, "="⟩]
          true with
      | .error e => .error (.py e)
      | .ok (.cols _) => .error (.py .typeMismatch)
      | .ok (.rows row_based_result) =>
        if row_based_result.length ≠ 1 then
          .error (.sdk ⟨UNEXPECTED_TABLE_RESULT, "get_table"⟩)
        else
          let row := row_based_result.headI
          match asStr ((dictGet row "spreadsheet_id").getD .vnone),
              asColDefs ((dictGet row "col_defs").getD .vnone) with
          | .error e, _ => .error (.py e)
          | _, .error e => .error (.py e)
          | .ok sid, .ok cds =>
            match _create_table_from_spreadsheet env sid cds with
            | .error e => .error e
            | .ok tbl =>
              let tid := s1.heap.length
              let tables1 :=
                if ¬ dict_hasattr database_name then dictSet s1.tables database_name []
                else s1.tables
              let tables2 := dictSet2 tables1 database_name table_name tid
              .ok (tid, { s1 with tables := tables2, heap := s1.heap ++ [tbl] })


instance {ε α : Type} [DecidableEq ε] [DecidableEq α] : DecidableEq (Except ε α) := fun x y =>
  match x, y with
  | .ok a, .ok b => if h : a = b then .isTrue (by rw [h]) else .isFalse (by simp [h])
  | .error a, .error b => if h : a = b then .isTrue (by rw [h]) else .isFalse (by simp [h])
  | .ok _, .error _ => .isFalse (by simp)
  | .error _, .ok _ => .isFalse (by simp)

/-- JSON col_defs cell describing a one-column string table, as stored in
the meta sheet of the caching scenario. -/
def scenarioColDefsJson : String := "[\x7b\"name\": \"a\", \"type\": \"string\"\x7d]"

/-- Remote environment of the caching scenario: a meta sheet listing two
tables `t1` and `t2` of the same database `db1`, and the two table sheets. -/
def scenarioEnv : SheetsEnv where
  fetch := fun sid =>
    if sid = "meta-sid" then
      (some ⟨"ROWS",
        [[.vstr "db1", .vstr "t1", .vstr "sid1", .vstr scenarioColDefsJson],
         [.vstr "db1", .vstr "t2", .vstr "sid2", .vstr scenarioColDefsJson]]⟩, none)
    else if sid = "sid1" then (some ⟨"ROWS", [[.vstr "x1"]]⟩, none)
    else if sid = "sid2" then (some ⟨"ROWS", [[.vstr "x2"]]⟩, none)
    else (none, some 404)

/-- Fresh SDK state of the caching scenario. -/
def scenarioStart : SDKState := ⟨"meta-sid", [], []⟩

/-- The caching scenario run: get `db1.t1`, then `db1.t2`, then `db1.t1`
again, returning the three heap references handed back. -/
def scenarioRun : Except Err (ℕ × ℕ × ℕ) := do
  let (id1, s1) ← get_table scenarioEnv scenarioStart "db1" "t1"
  let (id2, s2) ← get_table scenarioEnv s1 "db1" "t2"
  let (id3, _) ← get_table scenarioEnv s2 "db1" "t1"
  pure (id1, id2, id3)


/-- Fixture: a one-string-column schema for concrete commit scenarios. -/
def sampleColDefs : List ColDef := [⟨"a", "string"⟩]

/-- Fixture: a table with two synchronized rows, one pending insert, row 1
pending deletion and row 0 pending update. -/
def sampleTable : TableState :=
  ⟨"sheet-1", sampleColDefs, [[.vstr "x"], [.vstr "y"]], [[.vstr "z"]], {1}, {0}⟩

/-- Fixture: a table whose row 0 was updated and then matched by a later
delete, so it is pending in both change sets. -/
def sampleTableUpdatedThenDeleted : TableState :=
  ⟨"sheet-2", sampleColDefs, [[.vstr "x"], [.vstr "y"]], [], {0}, {0}⟩

/-- Fixture: all three remote steps succeed. -/
def sampleRemoteOk : RemoteOutcomes := ⟨none, none, none⟩

/-- Fixture: the remote update step fails with HTTP 500. -/
def sampleRemoteUpdateFail : RemoteOutcomes := ⟨some 500, none, none⟩

/-- A list of closed-open ranges covers exactly the set `s`: a natural is in
`s` iff some listed range contains it. -/
def CoversExactly (ranges : List (ℕ × ℕ)) (s : Finset ℕ) : Prop :=
  ∀ n : ℕ, n ∈ s ↔ ∃ p ∈ ranges, p.1 ≤ n ∧ n < p.2

/-- A run of consecutive naturals (each element one greater than the last). -/
def IsRun (l : List ℕ) : Prop := l.Chain' (fun a b => b = a + 1)

/-- Two runs are separated by a gap: the second starts at least two above the
end of the first (so they cannot be merged into one contiguous run). -/
def RunGap (r1 r2 : List ℕ) : Prop :=
  ∀ a ∈ r1.getLast?, ∀ b ∈ r2.head?, a + 2 ≤ b

/-! Shared lemmas about the embedded operations. -/

theorem mem_setToAscList (s : Finset ℕ) (n : ℕ) : n ∈ setToAscList s ↔ n ∈ s := by
  simp only [setToAscList, List.mem_filter, List.mem_range, decide_eq_true_eq]
  constructor
  · exact fun h => h.2
  · intro h
    exact ⟨Nat.lt_succ_of_le (Finset.le_sup (f := id) h), h⟩

theorem map_getD_range (l : List (List Value)) :
    (List.range l.length).map (fun i => l.getD i []) = l := by
  apply List.ext_getElem
  · simp
  · intro i h1 h2
    simp only [List.getElem_map, List.getElem_range]
    rw [List.getD_eq_getElem?_getD, List.getElem?_eq_getElem h2]
    rfl

theorem effective_rows_no_pending (t : TableState)
    (hd : t.deleted_initial_row_indexes = ∅) (hi : t.inserted_rows = []) :
    t.effective_rows = t.initial_rows := by
  unfold TableState.effective_rows
  rw [hd, hi, List.append_nil]
  have hf : ((List.range t.initial_rows.length).filter
      (fun i => decide (i ∉ (∅ : Finset ℕ)))) = List.range t.initial_rows.length := by
    apply List.filter_eq_self.mpr
    intro a _
    simp
  rw [hf]
  exact map_getD_range t.initial_rows

theorem commit_success_state (t : TableState) (remote : RemoteOutcomes)
    (h : (t.commit remote).2.2 = none) : (t.commit remote).2.1 = commitFinalize t := by
  unfold TableState.commit at h ⊢
  by_cases h1 : 0 < t.updated_initial_row_indexes.card <;>
    by_cases h2 : 0 < t.deleted_initial_row_indexes.card <;>
      by_cases h3 : 0 < t.inserted_rows.length <;>
        cases hu : remote.update_status <;>
          cases hd : remote.delete_status <;>
            cases hi : remote.insert_status <;>
              simp_all

theorem commit_trace_update_delete (t : TableState) (remote : RemoteOutcomes)
    (h1 : 0 < t.updated_initial_row_indexes.card)
    (h2 : 0 < t.deleted_initial_row_indexes.card)
    (hus : remote.update_status = none) :
    (t.commit remote).1 =
      commitUpdateCall t :: commitDeleteCall t ::
        (if remote.delete_status = none ∧ t.inserted_rows.length ≠ 0 then [commitInsertCall t]
         else []) := by
  unfold TableState.commit
  rw [if_pos h1, hus]
  simp only []
  rw [if_pos h2]
  by_cases h3 : 0 < t.inserted_rows.length <;>
    cases hd : remote.delete_status <;>
      cases hi : remote.insert_status <;>
        simp_all [Nat.pos_iff_ne_zero]

theorem delete_preserves_updated (t : TableState) (wcs : List WhereCondition) :
    ((t.delete wcs).1).updated_initial_row_indexes = t.updated_initial_row_indexes := by
  unfold TableState.delete
  cases hm : matchedInitialIndexes t.col_defs t.initial_rows t.deleted_initial_row_indexes wcs with
  | error e => rfl
  | ok matched =>
    cases hk : keptInsertedRows t.col_defs wcs t.inserted_rows with
    | error e => rfl
    | ok kept => rfl

theorem delete_adds_matched (t : TableState) (wcs : List WhereCondition) (l : List ℕ) (i : ℕ)
    (hm : matchedInitialIndexes t.col_defs t.initial_rows t.deleted_initial_row_indexes wcs =
      Except.ok l)
    (hi : i ∈ l) :
    i ∈ ((t.delete wcs).1).deleted_initial_row_indexes := by
  unfold TableState.delete
  rw [hm]
  simp only []
  cases hk : keptInsertedRows t.col_defs wcs t.inserted_rows with
  | error e => exact Finset.mem_union_right _ (List.mem_toFinset.mpr hi)
  | ok kept => exact Finset.mem_union_right _ (List.mem_toFinset.mpr hi)

theorem update_ok_updated_union (t : TableState) (rd : List (String × Value))
    (wcs : List WhereCondition) (l : List ℕ)
    (hm : matchedInitialIndexes t.col_defs t.initial_rows t.deleted_initial_row_indexes wcs =
      Except.ok l)
    (hok : (t.update rd wcs).2 = none) :
    ((t.update rd wcs).1).updated_initial_row_indexes =
      t.updated_initial_row_indexes ∪ l.toFinset := by
  revert hok
  unfold TableState.update
  by_cases hv : ¬ (rd.map Prod.fst).all (fun k => k ∈ t.col_names)
  · rw [if_pos hv]
    intro hok
    exact Option.noConfusion hok
  · rw [if_neg hv, hm]
    split
    next e heq => exact Except.noConfusion heq
    next matched heq =>
      injection heq with heq2
      subst heq2
      split
      next rows1 e heq3 => intro hok; exact Option.noConfusion hok
      next rows1 heq3 =>
        split
        next e heq4 => intro hok; exact Option.noConfusion hok
        next mi heq4 => intro hok; rfl

theorem payload_mem_of_updated (t : TableState) (i : ℕ)
    (hu : i ∈ t.updated_initial_row_indexes) :
    (i, t.initial_rows.getD i []) ∈ commitUpdatePayload t := by
  unfold commitUpdatePayload
  exact List.mem_map.mpr ⟨i, (mem_setToAscList _ _).mpr hu, rfl⟩

/-! Claim theorems. -/

/-- C1 (counterexample): constructing the predicate `('score', 5, '>')` on a
table whose `score` column is declared `number` succeeds, but evaluating it
against a row whose coerced value (6) exceeds 5 does not match the row — it
raises IllegalComparator, because `is_pass` only allows comparators other
than `=` on a column whose type tag is literally `'int'`. -/
theorem c1_number_gt_evaluation_raises :
    mkWhereCondition "score" (Value.vnum 5) ">" =
      Except.ok ⟨"score", Value.vnum 5, ">"⟩ ∧
    WhereCondition.is_pass ⟨"score", Value.vnum 5, ">"⟩ [Value.vnum 6] [⟨"score", "number"⟩] =
      Except.error (PyError.illegalComparator ">" "number") :=
  ⟨rfl, rfl⟩

/-- C1 (amended): constructing a predicate with comparator `>` and value 5
succeeds, but evaluating any predicate whose comparator is not `=` against a
column whose declared type is neither `'int'` nor `'json'` (in particular a
`number` column) raises IllegalComparator, exactly as spec section 4.3 says
for non-integer columns; the spec section 8 example claiming `>` works on a
`number` column contradicts the code. -/
theorem c1_non_eq_comparator_raises_illegal :
    mkWhereCondition "score" (Value.vnum 5) ">" =
      Except.ok ⟨"score", Value.vnum 5, ">"⟩ ∧
    ∀ (wc : WhereCondition) (col_defs : List ColDef) (row : List Value) (i : ℕ),
      wc.comparator ≠ "=" →
      get_col_index wc.col_name col_defs = some i →
      (col_defs.getD i default).type ≠ "int" →
      (col_defs.getD i default).type ≠ "json" →
      wc.is_pass row col_defs =
        Except.error (.illegalComparator wc.comparator (col_defs.getD i default).type) := by
  refine ⟨rfl, ?_⟩
  intro wc col_defs row i hne hidx hint hjson
  unfold WhereCondition.is_pass
  rw [hidx]
  simp only []
  rw [if_neg hjson, if_pos ⟨hne, hint⟩]

/-- C1 (witness): the amended theorem applied to the spec's own example —
`>` with value 5 on a `number` column. -/
theorem c1_illegal_comparator_witness :
    WhereCondition.is_pass ⟨"score", Value.vnum 5, ">"⟩ [Value.vnum 6] [⟨"score", "number"⟩] =
      Except.error (PyError.illegalComparator ">" "number") := by
  have h := c1_non_eq_comparator_raises_illegal.2 ⟨"score", Value.vnum 5, ">"⟩
    [⟨"score", "number"⟩] [Value.vnum 6] 0 (by decide) rfl (by decide) (by decide)
  exact h

/-- C2 (code bug evidence): running `get_table('db1','t1')`,
`get_table('db1','t2')`, `get_table('db1','t1')` against a fresh SDK returns
heap references 1, 2 and 3: the third call hands back a different in-memory
`Table` than the first, because creating `t2` re-ran
`self._tables['db1'] = {}` (the `hasattr` guard on a dict is always false)
and evicted the cached `t1`. The claim's same-instance-for-process-lifetime
guarantee therefore fails under interleaved `get_table` calls. -/
theorem c2_same_database_cache_eviction :
    ∃ id1 id2 id3 : ℕ, scenarioRun = Except.ok (id1, id2, id3) ∧ id1 ≠ id3 :=
  ⟨1, 2, 3, rfl, by decide⟩

/-- C3 (counterexample): the spec's suggested failing index 26 in fact
encodes correctly as `"AA"`, matching the standard bijective base-26
two-letter encoding. -/
theorem c3_index26_encodes_AA :
    _convert_to_a1 none (some 26) = Except.ok "AA" ∧ standardTwoLetterColumn 26 = "AA" :=
  ⟨rfl, rfl⟩

/-- C3 (amended): for every column index in the supported two-letter range
[26, 255], the divide-by-26-and-subtract-1 arithmetic of `_convert_to_a1`
agrees exactly with the standard bijective base-26 two-letter encoding;
no index in the range misencodes. -/
theorem c3_two_letter_arithmetic_correct (col : ℕ) (h1 : 26 ≤ col) (h2 : col ≤ 255) :
    _convert_to_a1 none (some (col : Int)) = Except.ok (standardTwoLetterColumn col) := by
  unfold _convert_to_a1
  rw [if_neg (by simp)]
  rw [if_neg (by push_neg; exact ⟨fun r hr => by simp at hr, fun c hc => by
    simp at hc; omega⟩)]
  rw [if_neg (by push_neg; intro c hc; simp at hc; omega)]
  have hlen : ((column_index_mapping.length : Int)) = 26 := by rfl
  simp only [hlen]
  have e1 : ((col : Int) / 26 - 1) ≥ 0 := by omega
  rw [if_pos e1]
  have e2 : ((col : Int) / 26 - 1).toNat = (col - 26) / 26 := by omega
  have e3 : ((col : Int) % 26).toNat = (col - 26) % 26 := by omega
  rw [e2, e3]
  simp [standardTwoLetterColumn]

/-- C3 (witness): the amended theorem instantiated at the boundary index 26. -/
theorem c3_two_letter_witness :
    _convert_to_a1 none (some (26 : ℕ)) = Except.ok (standardTwoLetterColumn 26) :=
  c3_two_letter_arithmetic_correct 26 (by decide) (by decide)

/-- C4: whenever both the pending update and delete sets are non-empty and
the update step succeeds remotely, the commit trace is exactly the update
call, then the delete call, then (the delete step permitting, when there are
inserted rows) the append call: the batched value-write is issued strictly
before the dimension-delete, and the append strictly after both. -/
theorem c4_commit_order_update_delete_insert (t : TableState) (remote : RemoteOutcomes)
    (hu : t.updated_initial_row_indexes.Nonempty)
    (hd : t.deleted_initial_row_indexes.Nonempty)
    (hus : remote.update_status = none) :
    (t.commit remote).1 =
      commitUpdateCall t :: commitDeleteCall t ::
        (if remote.delete_status = none ∧ t.inserted_rows.length ≠ 0 then [commitInsertCall t]
         else []) :=
  commit_trace_update_delete t remote (Finset.card_pos.mpr hu) (Finset.card_pos.mpr hd) hus

/-- C4 (witness): the ordering theorem applied to a concrete table with one
pending update, one pending delete and one pending insert, all remote steps
succeeding. -/
theorem c4_commit_order_witness :
    (sampleTable.commit sampleRemoteOk).1 =
      commitUpdateCall sampleTable :: commitDeleteCall sampleTable ::
        [commitInsertCall sampleTable] := by
  have h := c4_commit_order_update_delete_insert sampleTable sampleRemoteOk
    (by decide) (by decide) rfl
  rw [h]
  rfl

/-- C5: if any of the three remote steps of `commit` reports an error,
`commit` raises (returns `some` error) and the table's local state —
`initial_rows`, `inserted_rows`, `deleted_initial_row_indexes` and
`updated_initial_row_indexes` — is exactly the pre-commit state, so the
caller may retry the same commit plan. -/
theorem c5_commit_failure_preserves_state (t : TableState) (remote : RemoteOutcomes)
    (e : SheetsdbSDKError) (h : (t.commit remote).2.2 = some e) :
    (t.commit remote).2.1 = t := by
  unfold TableState.commit at h ⊢
  by_cases h1 : 0 < t.updated_initial_row_indexes.card <;>
    by_cases h2 : 0 < t.deleted_initial_row_indexes.card <;>
      by_cases h3 : 0 < t.inserted_rows.length <;>
        cases hu : remote.update_status <;>
          cases hd : remote.delete_status <;>
            cases hi : remote.insert_status <;>
              simp_all

/-- C5 (witness): a failing update step on a concrete table leaves the
state unchanged. -/
theorem c5_commit_failure_witness :
    (sampleTable.commit sampleRemoteUpdateFail).2.1 = sampleTable :=
  c5_commit_failure_preserves_state sampleTable sampleRemoteUpdateFail commitApiError rfl

/-- C6: after a successful commit, an immediate second commit (with any
remote outcomes) issues zero remote calls, reports no error, and leaves the
table state — in particular its `initial_rows` — unchanged. -/
theorem c6_commit_idempotent (t : TableState) (r1 r2 : RemoteOutcomes)
    (h : (t.commit r1).2.2 = none) :
    ((t.commit r1).2.1).commit r2 = ([], (t.commit r1).2.1, none) := by
  rw [commit_success_state t r1 h]
  have hfin : commitFinalize (commitFinalize t) = commitFinalize t := by
    show ({ commitFinalize t with
      initial_rows := (commitFinalize t).effective_rows,
      inserted_rows := [],
      deleted_initial_row_indexes := ∅,
      updated_initial_row_indexes := ∅ } : TableState) = commitFinalize t
    rw [effective_rows_no_pending (commitFinalize t) rfl rfl]
    rfl
  unfold TableState.commit
  rw [if_neg (by simp [commitFinalize])]
  simp only []
  rw [if_neg (by simp [commitFinalize])]
  simp only []
  rw [if_neg (by simp [commitFinalize])]
  simp only []
  rw [hfin]

/-- C6 (witness): the idempotence theorem applied to the concrete sample
table after a successful first commit. -/
theorem c6_commit_idempotent_witness :
    ((sampleTable.commit sampleRemoteOk).2.1).commit sampleRemoteOk =
      ([], (sampleTable.commit sampleRemoteOk).2.1, none) :=
  c6_commit_idempotent sampleTable sampleRemoteOk sampleRemoteOk rfl

/-- C8: for every row index ≥ 0 and column index in [0, 25], the translator
output is the single letter at that position of the A..Z alphabet followed
by the 1-based decimal row number. -/
theorem c8_single_letter_translation (row col : Int) (hr : 0 ≤ row) (hc0 : 0 ≤ col)
    (hc : col ≤ 25) :
    _convert_to_a1 (some row) (some col) =
      Except.ok (column_index_mapping.getD col.toNat "" ++ toString (row + 1)) := by
  unfold _convert_to_a1
  rw [if_neg (by simp)]
  rw [if_neg (by push_neg; exact ⟨fun r hr2 => by simp at hr2; omega, fun c hc2 => by
    simp at hc2; omega⟩)]
  rw [if_neg (by push_neg; intro c hc2; simp at hc2; omega)]
  have hlen : ((column_index_mapping.length : Int)) = 26 := by rfl
  simp only [hlen]
  have e1 : ¬ (col / 26 - 1 ≥ 0) := by omega
  rw [if_neg e1]
  have e2 : col % 26 = col := by omega
  rw [e2]

/-- C8 (witness): the translation theorem at (4, 2) gives "C5" (and hence
(0,0) gives "A1" by the same theorem). -/
theorem c8_single_letter_witness :
    _convert_to_a1 (some 4) (some 2) = Except.ok "C5" := by
  have h := c8_single_letter_translation 4 2 (by decide) (by decide) (by decide)
  rw [h]
  rfl

/-- C9 (counterexample): coercing the empty string with an unknown type tag
does not return the raw value unchanged — the empty-string check precedes
the type dispatch, so it returns `None`, not `''`. -/
theorem c9_empty_string_unknown_type_null :
    convert_to_value (Value.vstr "") "customtype" = Except.ok Value.vnone ∧
    (Except.ok Value.vnone : Except PyError Value) ≠ Except.ok (Value.vstr "") :=
  ⟨rfl, by simp⟩

/-- C9 (amended): an unknown type tag passes the raw value through unchanged
only when the raw value is neither `None` nor the empty string; `None` and
the empty string coerce to `None` under every type tag, unknown tags
included. -/
theorem c9_unknown_type_passthrough :
    (∀ (raw : Value) (ty : String),
        ty ∉ (["string", "number", "datetime", "json"] : List String) →
        isNoneOrEmpty raw = false →
        convert_to_value raw ty = Except.ok raw) ∧
    (∀ ty : String,
        convert_to_value Value.vnone ty = Except.ok Value.vnone ∧
        convert_to_value (Value.vstr "") ty = Except.ok Value.vnone) := by
  constructor
  · intro raw ty hty hraw
    simp only [List.mem_cons, List.mem_singleton, not_or] at hty
    obtain ⟨h1, h2, h3, h4, _⟩ := hty
    unfold convert_to_value
    rw [if_neg (by simp [hraw]), if_neg h1, if_neg h2, if_neg h3, if_neg h4]
  · intro ty
    exact ⟨rfl, rfl⟩

/-- C9 (witness): the passthrough part applied to a non-empty raw string and
an unrecognised tag. -/
theorem c9_unknown_type_witness :
    convert_to_value (Value.vstr "abc") "customtype" = Except.ok (Value.vstr "abc") :=
  c9_unknown_type_passthrough.1 (Value.vstr "abc") "customtype" (by decide) rfl

/-- C10: `delete` never removes indexes from the updated set (part 1) while
adding every matched index to the deleted set (part 2); a successful
`update` records its matched indexes in the updated set (part 3); and for an
index pending in both sets, `commit` (with the update step succeeding)
issues a value-write whose payload contains that row strictly before the
dimension-delete call (part 4). -/
theorem c10_update_then_delete_both_pending :
    (∀ (t : TableState) (wcs : List WhereCondition),
        ((t.delete wcs).1).updated_initial_row_indexes = t.updated_initial_row_indexes) ∧
    (∀ (t : TableState) (wcs : List WhereCondition) (l : List ℕ) (i : ℕ),
        matchedInitialIndexes t.col_defs t.initial_rows t.deleted_initial_row_indexes wcs =
          Except.ok l →
        i ∈ l →
        i ∈ ((t.delete wcs).1).deleted_initial_row_indexes) ∧
    (∀ (t : TableState) (rd : List (String × Value)) (wcs : List WhereCondition) (l : List ℕ),
        matchedInitialIndexes t.col_defs t.initial_rows t.deleted_initial_row_indexes wcs =
          Except.ok l →
        (t.update rd wcs).2 = none →
        ((t.update rd wcs).1).updated_initial_row_indexes =
          t.updated_initial_row_indexes ∪ l.toFinset) ∧
    (∀ (t : TableState) (remote : RemoteOutcomes) (i : ℕ),
        i ∈ t.updated_initial_row_indexes →
        i ∈ t.deleted_initial_row_indexes →
        remote.update_status = none →
        (i, t.initial_rows.getD i []) ∈ commitUpdatePayload t ∧
        ∃ rest, (t.commit remote).1 = commitUpdateCall t :: commitDeleteCall t :: rest) := by
  refine ⟨delete_preserves_updated, delete_adds_matched, update_ok_updated_union, ?_⟩
  intro t remote i hiu hid hus
  refine ⟨payload_mem_of_updated t i hiu, ?_⟩
  exact ⟨_, commit_trace_update_delete t remote
    (Finset.card_pos.mpr ⟨i, hiu⟩) (Finset.card_pos.mpr ⟨i, hid⟩) hus⟩

/-- C10 (witness): part 4 applied to a concrete table whose row 0 is pending
in both the updated and deleted sets. -/
theorem c10_update_then_delete_witness :
    (0, sampleTableUpdatedThenDeleted.initial_rows.getD 0 []) ∈
      commitUpdatePayload sampleTableUpdatedThenDeleted ∧
    ∃ rest, (sampleTableUpdatedThenDeleted.commit sampleRemoteOk).1 =
      commitUpdateCall sampleTableUpdatedThenDeleted ::
        commitDeleteCall sampleTableUpdatedThenDeleted :: rest :=
  c10_update_then_delete_both_pending.2.2.2 sampleTableUpdatedThenDeleted sampleRemoteOk 0
    (by decide) (by decide) rfl



theorem splitRunsAux_spec :
    ∀ (rest : List ℕ) (prev : ℕ) (cont : List ℕ) (acc : List (List ℕ)),
      List.Chain' (· < ·) (prev :: rest) →
      IsRun cont → cont ≠ [] → cont.getLast? = some prev →
      (∀ r ∈ acc, IsRun r ∧ r ≠ []) →
      List.Chain' RunGap (acc ++ [cont]) →
      ((splitRunsAux prev cont acc rest).flatten = acc.flatten ++ cont ++ rest) ∧
      (∀ r ∈ splitRunsAux prev cont acc rest, IsRun r ∧ r ≠ []) ∧
      List.Chain' RunGap (splitRunsAux prev cont acc rest) := by
  intro rest
  induction rest with
  | nil =>
    intro prev cont acc _ hrun hne _ hacc hchain
    refine ⟨?_, ?_, ?_⟩
    · simp [splitRunsAux]
    · intro r hr
      simp only [splitRunsAux, List.mem_append, List.mem_singleton] at hr
      rcases hr with hr | hr
      · exact hacc r hr
      · subst hr; exact ⟨hrun, hne⟩
    · simpa [splitRunsAux] using hchain
  | cons curr rest ih =>
    intro prev cont acc hsort hrun hne hlast hacc hchain
    have hlt : prev < curr := (List.chain'_cons.mp hsort).1
    have hsort2 : List.Chain' (· < ·) (curr :: rest) := (List.chain'_cons.mp hsort).2
    by_cases hstep : (prev : Int) = (curr : Int) - 1
    · have hcurr : curr = prev + 1 := by omega
      have hout : splitRunsAux prev cont acc (curr :: rest) =
          splitRunsAux curr (cont ++ [curr]) acc rest := by
        simp [splitRunsAux, hstep]
      rw [hout]
      have hrun2 : IsRun (cont ++ [curr]) := by
        unfold IsRun at hrun ⊢
        rw [List.chain'_append]
        refine ⟨hrun, List.chain'_singleton _, ?_⟩
        intro a ha b hb
        simp only [List.head?_cons, Option.mem_some_iff] at hb
        rw [hlast] at ha
        simp only [Option.mem_some_iff] at ha
        omega
      have hlast2 : (cont ++ [curr]).getLast? = some curr := List.getLast?_concat _
      have hchain2 : List.Chain' RunGap (acc ++ [cont ++ [curr]]) := by
        rw [List.chain'_append] at hchain ⊢
        refine ⟨hchain.1, List.chain'_singleton _, ?_⟩
        intro a ha b hb
        simp only [List.head?_cons, Option.mem_some_iff] at hb
        subst hb
        have hg := hchain.2.2 a ha cont (by simp)
        intro x hx y hy
        rw [List.head?_append_of_ne_nil cont hne] at hy
        exact hg x hx y hy
      have := ih curr (cont ++ [curr]) acc hsort2 hrun2 (by simp) hlast2 hacc hchain2
      refine ⟨?_, this.2.1, this.2.2⟩
      rw [this.1]
      simp
    · have hgap : prev + 2 ≤ curr := by omega
      have hout : splitRunsAux prev cont acc (curr :: rest) =
          splitRunsAux curr [curr] (acc ++ [cont]) rest := by
        simp [splitRunsAux, hstep]
      rw [hout]
      have hacc2 : ∀ r ∈ acc ++ [cont], IsRun r ∧ r ≠ [] := by
        intro r hr
        simp only [List.mem_append, List.mem_singleton] at hr
        rcases hr with hr | hr
        · exact hacc r hr
        · subst hr; exact ⟨hrun, hne⟩
      have hchain2 : List.Chain' RunGap ((acc ++ [cont]) ++ [[curr]]) := by
        refine List.Chain'.append hchain (List.chain'_singleton _) ?_
        intro a ha b hb
        rw [List.getLast?_concat] at ha
        simp only [Option.mem_some_iff, List.head?_cons] at ha hb
        subst ha
        subst hb
        intro x hx y hy
        rw [hlast] at hx
        simp only [Option.mem_some_iff, List.head?_cons] at hx hy
        omega
      have := ih curr [curr] (acc ++ [cont]) hsort2 (List.chain'_singleton _) (by simp)
        (by simp) hacc2 hchain2
      refine ⟨?_, this.2.1, this.2.2⟩
      rw [this.1]
      simp


theorem setToAscList_chain_lt (s : Finset ℕ) : (setToAscList s).Chain' (· < ·) :=
  List.chain'_iff_pairwise.mpr (List.Pairwise.filter _ (List.pairwise_lt_range _))

theorem continuous_row_indexes_spec (l : List ℕ) (hl : l.Chain' (· < ·)) :
    ((continuous_row_indexes l).flatten = l) ∧
    (∀ r ∈ continuous_row_indexes l, IsRun r ∧ r ≠ []) ∧
    List.Chain' RunGap (continuous_row_indexes l) := by
  cases l with
  | nil => exact ⟨rfl, fun r hr => absurd hr (by simp [continuous_row_indexes]), by
      simp [continuous_row_indexes]⟩
  | cons h t =>
    have := splitRunsAux_spec t h [h] [] hl (List.chain'_singleton _) (by simp) rfl
      (by simp) (by simp)
    exact ⟨by simpa [continuous_row_indexes] using this.1,
      by simpa [continuous_row_indexes] using this.2.1,
      by simpa [continuous_row_indexes] using this.2.2⟩

theorem getLastD_cons_cons (a b : ℕ) (t : List ℕ) (d : ℕ) :
    (a :: b :: t).getLastD d = (b :: t).getLastD d := by
  rw [List.getLastD_eq_getLast?, List.getLastD_eq_getLast?, List.getLast?_cons_cons]

theorem isRun_facts :
    ∀ (r : List ℕ), IsRun r → r ≠ [] →
      (r.headI ≤ r.getLastD 0) ∧ (∀ n, n ∈ r ↔ r.headI ≤ n ∧ n ≤ r.getLastD 0) := by
  intro r
  induction r with
  | nil => intro _ hne; exact absurd rfl hne
  | cons a t ih =>
    intro hrun _
    cases t with
    | nil =>
      refine ⟨by simp, ?_⟩
      intro n
      constructor
      · intro hn
        simp only [List.mem_singleton] at hn
        subst hn
        simp
      · intro ⟨h1, h2⟩
        simp only [List.mem_singleton]
        simp [List.headI, List.getLastD_eq_getLast?] at h1 h2
        omega
    | cons b t2 =>
      have hd := (List.chain'_cons.mp hrun).1
      have hrun2 : IsRun (b :: t2) := (List.chain'_cons.mp hrun).2
      have iht := ih hrun2 (by simp)
      rw [getLastD_cons_cons]
      have hhead : (b :: t2).headI = b := rfl
      refine ⟨?_, ?_⟩
      · have := iht.1
        simp only [hhead] at this
        simp only [List.headI]
        omega
      · intro n
        have hmem := iht.2 n
        simp only [hhead] at hmem
        have hle := iht.1
        simp only [hhead] at hle
        constructor
        · intro hn
          rcases List.mem_cons.mp hn with hn1 | hn2
          · subst hn1
            simp only [List.headI]
            omega
          · have := hmem.mp hn2
            simp only [List.headI]
            omega
        · intro ⟨h1, h2⟩
          simp only [List.headI] at h1
          by_cases hna : n = a
          · simp [hna]
          · exact List.mem_cons_of_mem _ (hmem.mpr (by omega))

theorem chain'_map_of_mem {α β : Type} (f : α → β) (P : α → Prop)
    (R : α → α → Prop) (S : β → β → Prop) :
    ∀ (l : List α), (∀ x ∈ l, P x) → (∀ a b, P a → P b → R a b → S (f a) (f b)) →
      List.Chain' R l → List.Chain' S (l.map f)
  | [], _, _, _ => List.chain'_nil
  | [a], _, _, _ => List.chain'_singleton _
  | a :: b :: t, hP, himp, hc => by
    simp only [List.map_cons]
    rw [List.chain'_cons]
    refine ⟨himp a b (hP a (by simp)) (hP b (by simp)) (List.chain'_cons.mp hc).1, ?_⟩
    rw [← List.map_cons]
    exact chain'_map_of_mem f P R S (b :: t)
      (fun x hx => hP x (List.mem_cons_of_mem _ hx)) himp (List.chain'_cons.mp hc).2

theorem chain'_pairwise_of_mem {α : Type} (P : α → Prop) (R : α → α → Prop) :
    ∀ (l : List α), (∀ x ∈ l, P x) →
      (∀ a b c, P a → P b → P c → R a b → R b c → R a c) →
      List.Chain' R l → List.Pairwise R l := by
  intro l
  induction l with
  | nil => intro _ _ _; exact List.Pairwise.nil
  | cons a t ih =>
    intro hP htrans hc
    have hct : List.Chain' R t := (List.chain'_cons'.mp hc).2
    have hpt : List.Pairwise R t :=
      ih (fun x hx => hP x (List.mem_cons_of_mem _ hx)) htrans hct
    refine List.pairwise_cons.mpr ⟨?_, hpt⟩
    intro b hb
    cases t with
    | nil => simp at hb
    | cons h t2 =>
      have hah : R a h := (List.chain'_cons'.mp hc).1 h rfl
      rcases List.mem_cons.mp hb with hb1 | hb2
      · subst hb1; exact hah
      · have hhb : R h b := (List.pairwise_cons.mp hpt).1 b hb2
        exact htrans a h b (hP a (by simp)) (hP h (by simp))
          (hP b (by simp [hb2])) hah hhb


theorem delete_ranges_spec (s : Finset ℕ) :
    CoversExactly (delete_ranges s) s ∧
    (∀ p ∈ delete_ranges s, p.1 < p.2) ∧
    List.Chain' (fun p q => p.2 < q.1) (delete_ranges s) := by
  have hspec := continuous_row_indexes_spec (setToAscList s) (setToAscList_chain_lt s)
  refine ⟨?_, ?_, ?_⟩
  · intro n
    rw [← mem_setToAscList s n, ← hspec.1, List.mem_flatten]
    constructor
    · intro ⟨r, hr, hnr⟩
      have hf := hspec.2.1 r hr
      have := (isRun_facts r hf.1 hf.2).2 n |>.mp hnr
      exact ⟨(r.headI, r.getLastD 0 + 1), List.mem_map.mpr ⟨r, hr, rfl⟩, this.1, by omega⟩
    · intro ⟨p, hp, h1, h2⟩
      obtain ⟨r, hr, hpr⟩ := List.mem_map.mp hp
      have hf := hspec.2.1 r hr
      refine ⟨r, hr, (isRun_facts r hf.1 hf.2).2 n |>.mpr ?_⟩
      subst hpr
      exact ⟨h1, by omega⟩
  · intro p hp
    obtain ⟨r, hr, hpr⟩ := List.mem_map.mp hp
    have hf := hspec.2.1 r hr
    have := (isRun_facts r hf.1 hf.2).1
    subst hpr
    simp only []
    omega
  · apply chain'_map_of_mem (fun r => (r.headI, r.getLastD 0 + 1))
      (fun r => IsRun r ∧ r ≠ []) RunGap _ _ hspec.2.1 ?_ hspec.2.2
    intro r1 r2 h1 h2 hgap
    simp only []
    cases r2 with
    | nil => exact absurd rfl h2.2
    | cons b t2 =>
      cases hr1 : r1.getLast? with
      | none => rw [List.getLast?_eq_none_iff] at hr1; exact absurd hr1 h1.2
      | some x =>
        have := hgap x (by rw [hr1]; rfl) b rfl
        have hlast : r1.getLastD 0 = x := by
          rw [List.getLastD_eq_getLast?, hr1]
          rfl
        simp only [List.headI]
        omega

theorem delete_ranges_minimal (s : Finset ℕ) (alt : List (ℕ × ℕ))
    (halt : CoversExactly alt s) : (delete_ranges s).length ≤ alt.length := by
  have hspec := delete_ranges_spec s
  set rs := delete_ranges s with hrs
  have hpw : List.Pairwise (fun p q : ℕ × ℕ => p.2 < q.1) rs :=
    chain'_pairwise_of_mem (fun p => p.1 < p.2) _ rs hspec.2.1
      (fun a b c ha hb hc h1 h2 => by omega) hspec.2.2
  have hij : ∀ u v : Fin rs.length, u.1 < v.1 → (rs.get u).2 < (rs.get v).1 := by
    have := List.pairwise_iff_getElem.mp hpw
    intro u v huv
    simpa using this u.1 v.1 u.2 v.2 huv
  have hne2 : ∀ u : Fin rs.length, (rs.get u).1 < (rs.get u).2 :=
    fun u => hspec.2.1 _ (List.get_mem rs u.1 u.2)
  have hhead_mem : ∀ u : Fin rs.length, (rs.get u).1 ∈ s :=
    fun u => (hspec.1 _).mpr ⟨rs.get u, List.get_mem rs u.1 u.2, le_refl _, hne2 u⟩
  have hgapj : ∀ v : Fin rs.length, 0 < v.1 →
      2 ≤ (rs.get v).1 ∧ (rs.get v).1 - 1 ∉ s := by
    intro v hvpos
    have h0 : (0 : ℕ) < rs.length := lt_of_le_of_lt (Nat.zero_le v.1) v.2
    have h01 := hij ⟨0, h0⟩ v hvpos
    have h00 := hne2 ⟨0, h0⟩
    refine ⟨by omega, ?_⟩
    intro hmem
    obtain ⟨p, hp, hc1, hc2⟩ := (hspec.1 _).mp hmem
    obtain ⟨k, hpk⟩ := List.mem_iff_get.mp hp
    subst hpk
    rcases lt_trichotomy k.1 v.1 with hkv | hkv | hkv
    · have := hij k v hkv
      omega
    · have : k = v := Fin.ext hkv
      subst this
      omega
    · have := hij v k hkv
      have hnek := hne2 k
      have hnev := hne2 v
      omega
  by_contra hlen
  push_neg at hlen
  have hex : ∀ u : Fin rs.length, ∃ p, p ∈ alt ∧
      p.1 ≤ (rs.get u).1 ∧ (rs.get u).1 < p.2 := fun u => (halt _).mp (hhead_mem u)
  classical
  let f : Fin rs.length → ℕ × ℕ := fun u => Classical.choose (hex u)
  have hf : ∀ u, f u ∈ alt ∧ (f u).1 ≤ (rs.get u).1 ∧ (rs.get u).1 < (f u).2 :=
    fun u => Classical.choose_spec (hex u)
  have hmaps : ∀ u ∈ (Finset.univ : Finset (Fin rs.length)), f u ∈ alt.toFinset :=
    fun u _ => List.mem_toFinset.mpr (hf u).1
  have hcard : alt.toFinset.card < (Finset.univ : Finset (Fin rs.length)).card := by
    have := alt.toFinset_card_le
    simp only [Finset.card_univ, Fintype.card_fin]
    omega
  obtain ⟨i, _, j, _, hne3, hfeq⟩ :=
    Finset.exists_ne_map_eq_of_card_lt_of_maps_to hcard hmaps
  have key : ∀ u v : Fin rs.length, u.1 < v.1 → f u = f v → False := by
    intro u v huv hfuv
    have hu := hf u
    have hv := hf v
    rw [hfuv] at hu
    have hauv : (rs.get u).1 < (rs.get v).1 := by
      have h1 := hij u v huv
      have h2 := hne2 u
      omega
    have hgap := hgapj v (lt_of_le_of_lt (Nat.zero_le u.1) huv)
    have : (rs.get v).1 - 1 ∈ s := by
      refine (halt _).mpr ⟨f v, (hf v).1, ?_, ?_⟩
      · have := hu.2.1
        omega
      · have := hv.2.2
        omega
    exact hgap.2 this
  rcases lt_or_gt_of_ne hne3 with h | h
  · exact key i j h hfeq
  · exact key j i h hfeq.symm


/-- C7: for every non-empty set of row indexes, the range compaction of
`delete_rows` produces an ascending sequence of closed-open contiguous
ranges (each non-empty, consecutive ranges separated by a gap) that covers
exactly the input set and is minimal in count among all exact covers by
closed-open ranges; in particular {1,2,3,7,8,10} yields
[[1,4),[7,9),[10,11)]. -/
theorem c7_range_compaction :
    (∀ s : Finset ℕ, s.Nonempty →
        CoversExactly (delete_ranges s) s ∧
        (∀ p ∈ delete_ranges s, p.1 < p.2) ∧
        List.Chain' (fun p q : ℕ × ℕ => p.2 < q.1) (delete_ranges s) ∧
        (∀ alt : List (ℕ × ℕ), CoversExactly alt s →
          (delete_ranges s).length ≤ alt.length)) ∧
    delete_ranges {1, 2, 3, 7, 8, 10} = [(1, 4), (7, 9), (10, 11)] := by
  refine ⟨?_, by decide⟩
  intro s _
  have h := delete_ranges_spec s
  exact ⟨h.1, h.2.1, h.2.2, fun alt halt => delete_ranges_minimal s alt halt⟩

/-- C7 (witness): the compaction theorem applied to the spec's example set. -/
theorem c7_range_compaction_witness :
    Finset.Nonempty ({1, 2, 3, 7, 8, 10} : Finset ℕ) ∧
    (CoversExactly (delete_ranges {1, 2, 3, 7, 8, 10}) {1, 2, 3, 7, 8, 10} ∧
     (∀ p ∈ delete_ranges ({1, 2, 3, 7, 8, 10} : Finset ℕ), p.1 < p.2) ∧
     List.Chain' (fun p q : ℕ × ℕ => p.2 < q.1)
       (delete_ranges ({1, 2, 3, 7, 8, 10} : Finset ℕ)) ∧
     (∀ alt : List (ℕ × ℕ), CoversExactly alt {1, 2, 3, 7, 8, 10} →
       (delete_ranges ({1, 2, 3, 7, 8, 10} : Finset ℕ)).length ≤ alt.length)) :=
  ⟨by decide, c7_range_compaction.1 {1, 2, 3, 7, 8, 10} (by decide)⟩

end Sheetsdb
